import Mathlib

/-!
Verification development for the nano-AGI repository.

The repository ships the web front-ends (ChatTab / ChatFeed / SwarmTab React
components and the static dashboard) of a voice-driven task system.  The
bounded-concurrency "swarm pool" engine those front-ends talk to is described
in the specification but its server-side implementation is not part of the
checked-in sources, so the pool, its task queue, its slots and its
cancellation semantics are modelled here from the specification's words; the
front-end helpers (transcript overlap deduplication, bounded chat feeds, and
the agent-result message replacement) are translated directly from the
TypeScript sources.
-/

namespace NanoAGI

/-! ## Pool data model

Modelled from the spec: the server-side swarm pool engine (Slot, Pool, Task
Queue, Dispatcher, Cancellation Controller of spec sections 3-4) is absent
from the repository sources; only its UI consumers exist.  The definitions
below follow the specification's words. -/

/-- Modelled from the spec: slot lifecycle states of section 4.2 — the closed
set {idle, running, done, failed, killed}. -/
inductive SlotStatus where
  | idle
  | running
  | done
  | failed
  | killed
deriving DecidableEq, Repr

/-- Modelled from the spec: a Task with identifier, description text,
category, numeric priority (0-10, higher = more urgent) and creation
timestamp (section 3). -/
structure Task where
  id : Nat
  description : String
  category : String
  priority : Nat
  created : Nat
deriving DecidableEq, Repr

/-- Modelled from the spec: a Slot — current status, the Task it is bound to
(or none), a start timestamp valid while running, and an output/result
buffer (section 3). -/
structure Slot where
  status : SlotStatus
  task : Option Task
  startTime : Option Nat
  output : String
deriving DecidableEq, Repr

/-- Modelled from the spec: the initial (idle) state of a Slot. -/
def idleSlot : Slot :=
  { status := .idle, task := none, startTime := none, output := "" }

/-- Modelled from the spec: a Pool is the fixed ordered set of N Slots plus
the Task Queue of pending Tasks (section 3). -/
structure Pool where
  slots : List Slot
  queue : List Task
deriving DecidableEq, Repr

/-- Modelled from the spec: the initial pool — N idle slots, empty queue. -/
def initPool (n : Nat) : Pool :=
  { slots := List.replicate n idleSlot, queue := [] }

/-- Modelled from the spec: `active_count`, the number of currently running
slots (section 3). -/
def activeCount (p : Pool) : Nat :=
  p.slots.countP (fun s => s.status = .running)

/-- Modelled from the spec: queue size. -/
def queueSize (p : Pool) : Nat := p.queue.length

/-! ## Task queue (section 4.1)

Ordering invariant: highest priority first, ties broken by earliest creation
timestamp (FIFO within priority). -/

/-- Modelled from the spec: `enqueue` inserts a task respecting the
priority/FIFO ordering invariant — the new task is placed before the first
strictly lower-priority task, hence after every task of equal or higher
priority already queued. -/
def insertTask (t : Task) : List Task → List Task
  | [] => [t]
  | u :: rest =>
    if u.priority < t.priority then t :: u :: rest
    else u :: insertTask t rest

/-- Modelled from the spec: `dequeue_next` removes and returns the head of
the queue, or nothing when the queue is empty. -/
def dequeueNext (q : List Task) : Option Task × List Task :=
  match q with
  | [] => (none, [])
  | t :: rest => (some t, rest)

/-- Queue ordering relation: `a` may precede `b` when `a` has strictly
higher priority, or equal priority and an earlier-or-equal creation
timestamp. -/
def queueRel (a b : Task) : Prop :=
  b.priority < a.priority ∨ (a.priority = b.priority ∧ a.created ≤ b.created)

instance : DecidableRel queueRel := fun a b => by
  unfold queueRel; infer_instance

/-! ## Slot state machine (section 4.2) -/

/-- Modelled from the spec: the error taxonomy entry `AlreadyBusy` —
assignment attempted on a non-idle Slot (section 7). -/
inductive PoolError where
  | alreadyBusy
deriving DecidableEq, Repr

/-- Modelled from the spec: the slot state produced by a successful
assignment — the task is bound, the start timestamp recorded, the status is
`running` and the output buffer is fresh. -/
def slotAssigned (t : Task) (now : Nat) : Slot :=
  { status := .running, task := some t, startTime := some now, output := "" }

/-- Modelled from the spec: `assign(task)` fails with `AlreadyBusy` if the
slot status is not idle; on success it binds the task, records the start
timestamp and transitions to running (section 4.2). -/
def assign (s : Slot) (t : Task) (now : Nat) : Except PoolError Slot :=
  if s.status = .idle then .ok (slotAssigned t now)
  else .error .alreadyBusy

/-- Modelled from the spec: `complete(result, success)` — transitions a
running slot to done/failed, stores the result and clears the start
timestamp while retaining the task reference; on a non-running slot it does
nothing (section 4.2). -/
def completeSlot (res : String) (success : Bool) (s : Slot) : Slot :=
  if s.status = .running then
    { s with status := if success then .done else .failed,
             output := res, startTime := none }
  else s

/-- Modelled from the spec: `kill()` fails silently (no-op) if the slot is
not running; otherwise it transitions to `killed`, keeping any partial
output (section 4.2). -/
def slotKill (s : Slot) : Slot :=
  if s.status = .running then
    { s with status := .killed, startTime := none }
  else s

/-! ## Dispatcher (section 4.3)

The dispatch loop scans Slots in index order for the first slot free to
accept work and assigns it the head of the queue, repeating until no free
slot remains or the queue is empty.  Per section 4.2 a slot in a terminal
display state (done/failed/killed) returns to `idle` on its next
assignment, so "free" means "not running"; the dispatcher first resets such
a freed slot to idle (overwriting display metadata) and then performs the
`assign`, which therefore always succeeds. -/

/-- Modelled from the spec: a slot is free for assignment exactly when it is
not currently running (idle, or holding a finished done/failed/killed
display state that the next assignment overwrites, section 4.2). -/
def slotFree (s : Slot) : Bool := s.status ≠ .running

/-- Modelled from the spec: scan the slot list in index order for the first
free slot, returning its index. -/
def firstFree : List Slot → Option Nat
  | [] => none
  | s :: rest => if slotFree s then some 0 else (firstFree rest).map (· + 1)

/-- Modelled from the spec: the dispatch loop body — repeatedly take the
queue head, find the lowest-indexed free slot, reset it to idle and
`assign` the task to it; stop when the queue is empty or no slot is free. -/
def dispatchAux (now : Nat) : List Slot → List Task → List Slot × List Task
  | slots, [] => (slots, [])
  | slots, t :: rest =>
    match firstFree slots with
    | none => (slots, t :: rest)
    | some i =>
      match assign idleSlot t now with
      | .ok s' => dispatchAux now (slots.set i s') rest
      | .error _ => (slots, t :: rest)

/-- Modelled from the spec: run the dispatch algorithm on a pool. -/
def dispatch (now : Nat) (p : Pool) : Pool :=
  let r := dispatchAux now p.slots p.queue
  { slots := r.1, queue := r.2 }

/-- Modelled from the spec: `submit(task)` enqueues, then immediately
attempts assignment (section 4.3); the sole entry point for new work. -/
def submit (t : Task) (now : Nat) (p : Pool) : Pool :=
  dispatch now { p with queue := insertTask t p.queue }

/-- Modelled from the spec: a slot `complete` event — the slot transitions
to done/failed and the Dispatcher is invoked again so the freed slot
immediately picks up the next queued task (section 4.3). -/
def complete (i : Nat) (res : String) (success : Bool) (now : Nat) (p : Pool) : Pool :=
  dispatch now { p with slots := p.slots.modify (completeSlot res success) i }

/-! ## Cancellation controller (section 4.5) -/

/-- Modelled from the spec: `kill(slot_id)` targets one slot; a silent no-op
when that slot is not running. -/
def kill (i : Nat) (p : Pool) : Pool :=
  { p with slots := p.slots.modify slotKill i }

/-- Modelled from the spec: `kill_all()` iterates all Slots and kills each
running one, then drains the Task Queue; the second component is the list
of pending Tasks marked cancelled in the external store (section 4.5). -/
def killAll (p : Pool) : Pool × List Task :=
  ({ slots := p.slots.map slotKill, queue := [] }, p.queue)

/-! ## Operation sequences over the pool -/

/-- Modelled from the spec: the external operations on the pool — task
submission, slot completion, single-slot kill and global kill (section 6). -/
inductive PoolOp where
  | submit (t : Task) (now : Nat)
  | complete (i : Nat) (res : String) (success : Bool) (now : Nat)
  | kill (i : Nat)
  | killAll
deriving Repr

/-- Apply one pool operation. -/
def applyOp (p : Pool) : PoolOp → Pool
  | .submit t now => submit t now p
  | .complete i res success now => complete i res success now p
  | .kill i => kill i p
  | .killAll => (killAll p).1

/-- Apply a sequence of pool operations in order. -/
def applyOps (p : Pool) (ops : List PoolOp) : Pool := ops.foldl applyOp p

/-! ## Basic preservation lemmas -/

theorem dispatchAux_length (now : Nat) (q : List Task) (slots : List Slot) :
    (dispatchAux now slots q).1.length = slots.length := by
  induction q generalizing slots with
  | nil => rfl
  | cons t rest ih =>
    unfold dispatchAux
    cases h : firstFree slots with
    | none => rfl
    | some i =>
      simp only [assign, idleSlot, reduceIte]
      rw [ih]
      exact List.length_set slots i _

theorem applyOp_slots_length (p : Pool) (op : PoolOp) :
    (applyOp p op).slots.length = p.slots.length := by
  cases op with
  | submit t now =>
    simp only [applyOp, submit, dispatch]
    exact dispatchAux_length now _ _
  | complete i res success now =>
    simp only [applyOp, complete, dispatch]
    rw [dispatchAux_length]
    exact List.length_modify ..
  | kill i =>
    simp only [applyOp, kill]
    exact List.length_modify ..
  | killAll =>
    simp only [applyOp, killAll]
    exact List.length_map ..

theorem applyOps_slots_length (ops : List PoolOp) (p : Pool) :
    (applyOps p ops).slots.length = p.slots.length := by
  induction ops generalizing p with
  | nil => rfl
  | cons op rest ih =>
    simp only [applyOps, List.foldl_cons] at *
    rw [ih (applyOp p op), applyOp_slots_length]

/-- C1 claim statement body, shared shape: the active count is bounded by
the number of slots. -/
theorem activeCount_le_slots (p : Pool) : activeCount p ≤ p.slots.length :=
  List.countP_le_length _

/-- **C1** — Capacity invariant: for every sequence of submissions,
completions and kills starting from a pool of N slots, the slot count stays
N and `active_count` never exceeds N; at most N tasks run concurrently. -/
theorem capacity_invariant (n : Nat) (ops : List PoolOp) :
    (applyOps (initPool n) ops).slots.length = n ∧
    activeCount (applyOps (initPool n) ops) ≤ n := by
  have hlen : (applyOps (initPool n) ops).slots.length = n := by
    rw [applyOps_slots_length]
    simp [initPool]
  exact ⟨hlen, le_trans (activeCount_le_slots _) (le_of_eq hlen)⟩

/-! ## Task queue ordering (claim C2) -/

/-- Modelled from the spec: the operations an external caller performs on
the Task Queue — `enqueue(task)` and `dequeue_next()` (section 4.1). -/
inductive QOp where
  | enq (t : Task)
  | deq
deriving Repr

/-- Apply one queue operation: `enqueue` inserts respecting the ordering
invariant, `dequeue_next` removes the head (a no-op on an empty queue). -/
def applyQOp (q : List Task) : QOp → List Task
  | .enq t => insertTask t q
  | .deq => (dequeueNext q).2

/-- Apply a sequence of queue operations in order. -/
def applyQOps (q : List Task) (ops : List QOp) : List Task :=
  ops.foldl applyQOp q

/-- The tasks enqueued by a sequence of queue operations, in order of
submission. -/
def enqTasks (ops : List QOp) : List Task :=
  ops.filterMap (fun op => match op with | .enq t => some t | .deq => none)

theorem mem_insertTask {w t : Task} {q : List Task} :
    w ∈ insertTask t q ↔ w = t ∨ w ∈ q := by
  induction q with
  | nil => simp [insertTask]
  | cons u rest ih =>
    by_cases h : u.priority < t.priority
    · simp [insertTask, h]
    · simp [insertTask, h, ih]
      tauto

theorem insertTask_pairwise {t : Task} {q : List Task}
    (hq : q.Pairwise queueRel) (hcr : ∀ u ∈ q, u.created ≤ t.created) :
    (insertTask t q).Pairwise queueRel := by
  induction q with
  | nil => simp [insertTask]
  | cons u rest ih =>
    rcases List.pairwise_cons.mp hq with ⟨hu, hrest⟩
    by_cases h : u.priority < t.priority
    · simp only [insertTask, h, reduceIte]
      refine List.pairwise_cons.mpr ⟨?_, hq⟩
      intro v hv
      rcases List.mem_cons.mp hv with rfl | hv
      · exact Or.inl h
      · rcases hu v hv with hlt | ⟨heq, _⟩
        · exact Or.inl (lt_trans hlt h)
        · exact Or.inl (heq ▸ h)
    · simp only [insertTask, h, reduceIte]
      refine List.pairwise_cons.mpr ⟨?_, ?_⟩
      · intro w hw
        rcases mem_insertTask.mp hw with hw | hw
        · subst hw
          rcases Nat.lt_or_ge w.priority u.priority with hlt | hge
          · exact Or.inl hlt
          · have : u.priority = w.priority := Nat.le_antisymm hge (Nat.le_of_not_lt h)
            exact Or.inr ⟨this, hcr u (List.mem_cons_self u rest)⟩
        · exact hu w hw
      · exact ih hrest (fun v hv => hcr v (List.mem_cons_of_mem u hv))

theorem applyQOps_pairwise (ops : List QOp) (q : List Task)
    (hq : q.Pairwise queueRel)
    (hcr : ∀ u ∈ q, ∀ t ∈ enqTasks ops, u.created ≤ t.created)
    (hmono : (enqTasks ops).Pairwise (fun a b => a.created ≤ b.created)) :
    (applyQOps q ops).Pairwise queueRel := by
  induction ops generalizing q with
  | nil => exact hq
  | cons op rest ih =>
    cases op with
    | enq t =>
      have henq : enqTasks (QOp.enq t :: rest) = t :: enqTasks rest := rfl
      rw [henq] at hcr hmono
      rcases List.pairwise_cons.mp hmono with ⟨hmt, hmrest⟩
      refine ih (insertTask t q) ?_ ?_ hmrest
      · exact insertTask_pairwise hq
          (fun u hu => hcr u hu t (List.mem_cons_self t _))
      · intro u hu t' ht'
        rcases mem_insertTask.mp hu with hu | hu
        · exact hu ▸ hmt t' ht'
        · exact hcr u hu t' (List.mem_cons_of_mem t ht')
    | deq =>
      have hdq : enqTasks (QOp.deq :: rest) = enqTasks rest := rfl
      rw [hdq] at hcr hmono
      refine ih (dequeueNext q).2 ?_ ?_ hmono
      · cases q with
        | nil => exact List.Pairwise.nil
        | cons a as => exact (List.pairwise_cons.mp hq).2
      · intro u hu t' ht'
        cases q with
        | nil => simp [dequeueNext] at hu
        | cons a as =>
          exact hcr u (List.mem_cons_of_mem a hu) t' ht'

/-- **C2** — Task-queue ordering: after any sequence of `enqueue` and
`dequeue_next` operations (with creation timestamps recorded in submission
order) the queue is in highest-priority-first order with ties broken by
earliest creation timestamp, so a queued task of equal priority that was
submitted (created) earlier sits closer to the head and is dequeued first,
and every higher-priority queued task sits before every lower-priority
one. -/
theorem queue_ordering (ops : List QOp)
    (hmono : (enqTasks ops).Pairwise (fun a b => a.created ≤ b.created)) :
    (applyQOps [] ops).Pairwise queueRel ∧
    (∀ i j (hi : i < (applyQOps [] ops).length) (hj : j < (applyQOps [] ops).length),
        (applyQOps [] ops)[i].priority = (applyQOps [] ops)[j].priority →
        (applyQOps [] ops)[i].created < (applyQOps [] ops)[j].created → i < j) ∧
    (∀ i j (hi : i < (applyQOps [] ops).length) (hj : j < (applyQOps [] ops).length),
        (applyQOps [] ops)[j].priority < (applyQOps [] ops)[i].priority → i < j) := by
  have hp : (applyQOps [] ops).Pairwise queueRel :=
    applyQOps_pairwise ops [] List.Pairwise.nil (by simp) hmono
  have hget := List.pairwise_iff_getElem.mp hp
  refine ⟨hp, ?_, ?_⟩
  · intro i j hi hj hpri hcr
    rcases Nat.lt_trichotomy i j with h | h | h
    · exact h
    · subst h
      exact absurd hcr (lt_irrefl _)
    · rcases hget j i hj hi h with hlt | ⟨heq, hle⟩
      · exact absurd (hpri ▸ hlt) (lt_irrefl _)
      · exact absurd (Nat.lt_of_lt_of_le hcr hle) (lt_irrefl _)
  · intro i j hi hj hpri
    rcases Nat.lt_trichotomy i j with h | h | h
    · exact h
    · subst h
      exact absurd hpri (lt_irrefl _)
    · rcases hget j i hj hi h with hlt | ⟨heq, _⟩
      · exact absurd (lt_trans hpri hlt) (lt_irrefl _)
      · exact absurd (heq ▸ hpri) (lt_irrefl _)

/-- Witness for C2: submitting A(pri 5, t=0), B(pri 5, t=1), C(pri 8, t=2)
leaves the queue ordered [C, A, B]. -/
theorem queue_ordering_witness :
    (enqTasks [QOp.enq ⟨1, "A", "code", 5, 0⟩, QOp.enq ⟨2, "B", "code", 5, 1⟩,
        QOp.enq ⟨3, "C", "code", 8, 2⟩]).Pairwise (fun a b => a.created ≤ b.created) ∧
    (applyQOps [] [QOp.enq ⟨1, "A", "code", 5, 0⟩, QOp.enq ⟨2, "B", "code", 5, 1⟩,
        QOp.enq ⟨3, "C", "code", 8, 2⟩]).Pairwise queueRel := by
  have h : (enqTasks [QOp.enq ⟨1, "A", "code", 5, 0⟩, QOp.enq ⟨2, "B", "code", 5, 1⟩,
      QOp.enq ⟨3, "C", "code", 8, 2⟩]).Pairwise (fun a b => a.created ≤ b.created) := by
    simp [enqTasks, List.pairwise_cons]
  exact ⟨h, (queue_ordering _ h).1⟩

/-! ## Dispatcher assignment order (claim C3) -/

theorem firstFree_spec {l : List Slot} {i : Nat} (h : firstFree l = some i) :
    ∃ hi : i < l.length, slotFree (l.get ⟨i, hi⟩) = true ∧
      ∀ j (hj : j < l.length), j < i → slotFree (l.get ⟨j, hj⟩) = false := by
  induction l generalizing i with
  | nil => simp [firstFree] at h
  | cons s rest ih =>
    by_cases hs : slotFree s
    · simp only [firstFree, hs, reduceIte, Option.some.injEq] at h
      subst h
      exact ⟨Nat.succ_pos _, hs, fun j hj hlt => absurd hlt (Nat.not_lt_zero j)⟩
    · rw [firstFree, if_neg hs] at h
      rcases Option.map_eq_some'.mp h with ⟨i', hi', rfl⟩
      rcases ih hi' with ⟨hlt, hfree, hbefore⟩
      refine ⟨Nat.succ_lt_succ hlt, hfree, ?_⟩
      intro j hj hji
      cases j with
      | zero => simpa using hs
      | succ j' =>
        exact hbefore j' (Nat.lt_of_succ_lt_succ hj) (Nat.lt_of_succ_lt_succ hji)

theorem dispatchAux_step (now : Nat) (slots : List Slot) (t : Task)
    (rest : List Task) {i : Nat} (h : firstFree slots = some i) :
    dispatchAux now slots (t :: rest) =
      dispatchAux now (slots.set i (slotAssigned t now)) rest := by
  conv_lhs => rw [dispatchAux]
  rw [h]
  rfl

theorem dispatchAux_full (now : Nat) (slots : List Slot) (t : Task)
    (rest : List Task) (h : firstFree slots = none) :
    dispatchAux now slots (t :: rest) = (slots, t :: rest) := by
  conv_lhs => rw [dispatchAux]
  rw [h]

/-- Scenario task A of spec section 8 (priority 5, submitted first). -/
def scnA : Task := ⟨1, "A", "other", 5, 0⟩

/-- Scenario task B of spec section 8 (priority 5, submitted second). -/
def scnB : Task := ⟨2, "B", "other", 5, 1⟩

/-- Scenario task C of spec section 8 (priority 8, submitted third). -/
def scnC : Task := ⟨3, "C", "other", 8, 2⟩

/-- Scenario task D of spec section 8 (priority 5, submitted last). -/
def scnD : Task := ⟨4, "D", "other", 5, 3⟩

/-- **C3** — Dispatch assignment order: the dispatch step always picks the
lowest-indexed free (idle-for-assignment) slot — the chosen index is free
and every smaller index is not — assigns the queue head to it and repeats,
stopping when no slot is free or the queue is empty.  In particular, for a
pool of N=2 with submissions A(pri 5), B(pri 5), C(pri 8) in that order
from an all-idle state, A goes to slot 0, B to slot 1 and C is queued; when
slot 0 completes, C is assigned to slot 0 while the later priority-5
submission D stays queued. -/
theorem dispatch_assignment_order :
    (∀ (l : List Slot) (i : Nat), firstFree l = some i →
       ∃ hi : i < l.length, slotFree (l.get ⟨i, hi⟩) = true ∧
         ∀ j (hj : j < l.length), j < i → slotFree (l.get ⟨j, hj⟩) = false) ∧
    (∀ (now : Nat) (slots : List Slot) (t : Task) (rest : List Task) (i : Nat),
       firstFree slots = some i →
       dispatchAux now slots (t :: rest) =
         dispatchAux now (slots.set i (slotAssigned t now)) rest) ∧
    (∀ (now : Nat) (slots : List Slot) (t : Task) (rest : List Task),
       firstFree slots = none →
       dispatchAux now slots (t :: rest) = (slots, t :: rest)) ∧
    applyOps (initPool 2)
        [.submit scnA 0, .submit scnB 1, .submit scnC 2, .submit scnD 3] =
      { slots := [slotAssigned scnA 0, slotAssigned scnB 1],
        queue := [scnC, scnD] } ∧
    applyOps (initPool 2)
        [.submit scnA 0, .submit scnB 1, .submit scnC 2, .submit scnD 3,
         .complete 0 "finished" true 4] =
      { slots := [slotAssigned scnC 4, slotAssigned scnB 1],
        queue := [scnD] } := by
  refine ⟨fun l i h => firstFree_spec h,
          fun now slots t rest i h => dispatchAux_step now slots t rest h,
          fun now slots t rest h => dispatchAux_full now slots t rest h,
          by decide, by decide⟩

/-- Witness for C3: the general clauses applied to the two-slot pool in
which slot 0 is busy and slot 1 is the first free slot. -/
theorem dispatch_assignment_order_witness :
    firstFree [slotAssigned scnA 0, idleSlot] = some 1 ∧
    (∃ hi : 1 < ([slotAssigned scnA 0, idleSlot] : List Slot).length,
      slotFree (([slotAssigned scnA 0, idleSlot] : List Slot).get ⟨1, hi⟩) = true ∧
        ∀ j (hj : j < ([slotAssigned scnA 0, idleSlot] : List Slot).length), j < 1 →
          slotFree (([slotAssigned scnA 0, idleSlot] : List Slot).get ⟨j, hj⟩) = false) := by
  have h : firstFree [slotAssigned scnA 0, idleSlot] = some 1 := by decide
  exact ⟨h, dispatch_assignment_order.1 _ 1 h⟩

/-! ## Slot assign contract (claim C4) -/

/-- **C4** — Slot assign contract: `assign(task)` fails with `AlreadyBusy`
exactly when the slot's status is not idle, in which case no successor slot
state is produced (the slot is left unchanged); when the slot is idle it
succeeds, binding the task, recording the start timestamp and transitioning
the slot to running. -/
theorem assign_contract (s : Slot) (t : Task) (now : Nat) :
    (assign s t now = .error .alreadyBusy ↔ s.status ≠ .idle) ∧
    (s.status ≠ .idle → ∀ s' : Slot, assign s t now ≠ .ok s') ∧
    (s.status = .idle →
      assign s t now = .ok { status := .running, task := some t,
                             startTime := some now, output := "" }) := by
  refine ⟨⟨?_, ?_⟩, ?_, ?_⟩
  · intro h hidle
    simp [assign, hidle] at h
  · intro h
    simp [assign, h]
  · intro h s' hok
    simp [assign, h] at hok
  · intro h
    simp [assign, h, slotAssigned]

/-- Witness for C4: assigning task A to a fresh idle slot succeeds and
produces a running slot, while assigning to the resulting busy slot fails
with `AlreadyBusy`. -/
theorem assign_contract_witness :
    (idleSlot.status = .idle ∧
      assign idleSlot scnA 0 = .ok { status := .running, task := some scnA,
                                     startTime := some 0, output := "" }) ∧
    ((slotAssigned scnA 0).status ≠ .idle ∧
      assign (slotAssigned scnA 0) scnB 1 = .error .alreadyBusy) :=
  ⟨⟨by decide, (assign_contract idleSlot scnA 0).2.2 (by decide)⟩,
   ⟨by decide, (assign_contract (slotAssigned scnA 0) scnB 1).1.mpr (by decide)⟩⟩

/-! ## Slot kill contract (claim C5) -/

theorem slotKill_status_killed {s : Slot} (h : (slotKill s).status = .killed) :
    s.status = .killed ∨ s.status = .running := by
  by_cases hr : s.status = .running
  · exact Or.inr hr
  · left
    simpa [slotKill, hr] using h

theorem completeSlot_status_killed {res : String} {b : Bool} {s : Slot}
    (h : (completeSlot res b s).status = .killed) : s.status = .killed := by
  by_cases hr : s.status = .running
  · cases b <;> simp [completeSlot, hr] at h
  · simpa [completeSlot, hr] using h

/-- If the dispatch loop leaves a slot in the `killed` state, the slot was
already `killed` before the loop ran: dispatching only ever makes slots
`running`. -/
theorem dispatchAux_killed (now : Nat) (q : List Task) :
    ∀ (slots : List Slot) (i : Nat) (hi : i < slots.length)
      (hri : i < (dispatchAux now slots q).1.length),
      ((dispatchAux now slots q).1[i]).status = .killed →
      (slots[i]).status = .killed := by
  induction q with
  | nil =>
    intro slots i hi hri h
    exact h
  | cons t rest ih =>
    intro slots i hi hri h
    cases hf : firstFree slots with
    | none =>
      simp only [dispatchAux_full now slots t rest hf] at h
      exact h
    | some j =>
      simp only [dispatchAux_step now slots t rest hf] at h hri
      have hset : i < (slots.set j (slotAssigned t now)).length := by
        simpa using hi
      have h2 := ih (slots.set j (slotAssigned t now)) i hset hri h
      rw [List.getElem_set] at h2
      by_cases hij : j = i
      · simp [hij, slotAssigned] at h2
      · simpa [hij] using h2

/-- No pool operation moves a slot into `killed` except from `running`. -/
theorem applyOp_killed (p : Pool) (op : PoolOp) (i : Nat)
    (hi : i < p.slots.length) (hri : i < (applyOp p op).slots.length)
    (h : ((applyOp p op).slots[i]).status = .killed) :
    (p.slots[i]).status = .killed ∨ (p.slots[i]).status = .running := by
  cases op with
  | submit t now =>
    exact Or.inl (dispatchAux_killed now _ p.slots i hi hri h)
  | complete j res b now =>
    have hmod : i < (p.slots.modify (completeSlot res b) j).length := by
      simpa [List.length_modify] using hi
    have h2 := dispatchAux_killed now _ _ i hmod hri h
    rw [List.getElem_modify] at h2
    by_cases hij : j = i
    · rw [if_pos hij] at h2
      exact Or.inl (completeSlot_status_killed h2)
    · rw [if_neg hij] at h2
      exact Or.inl h2
  | kill j =>
    simp only [applyOp, kill] at h
    rw [List.getElem_modify] at h
    by_cases hij : j = i
    · rw [if_pos hij] at h
      exact slotKill_status_killed h
    · rw [if_neg hij] at h
      exact Or.inl h
  | killAll =>
    simp only [applyOp, killAll] at h
    rw [List.getElem_map] at h
    exact slotKill_status_killed h

/-- **C5** — Slot kill contract: `kill()` is a silent no-op (no state
change) on a slot that is not running; on a running slot it transitions the
slot to `killed`; and across every pool operation the `killed` state is
entered only from `running`. -/
theorem kill_contract :
    (∀ s : Slot, s.status ≠ .running → slotKill s = s) ∧
    (∀ s : Slot, s.status = .running →
      slotKill s = { s with status := .killed, startTime := none }) ∧
    (∀ (p : Pool) (op : PoolOp) (i : Nat)
       (hi : i < p.slots.length) (hri : i < (applyOp p op).slots.length),
       ((applyOp p op).slots[i]).status = .killed →
       (p.slots[i]).status = .killed ∨ (p.slots[i]).status = .running) := by
  refine ⟨?_, ?_, fun p op i hi hri h => applyOp_killed p op i hi hri h⟩
  · intro s h
    simp [slotKill, h]
  · intro s h
    simp [slotKill, h]

/-- Witness for C5: killing the idle slot changes nothing, killing a
running slot yields `killed`, and the kill operation on a one-slot pool
reaches `killed` only because the slot was running. -/
theorem kill_contract_witness :
    (idleSlot.status ≠ .running ∧ slotKill idleSlot = idleSlot) ∧
    ((slotAssigned scnA 0).status = .running ∧
      slotKill (slotAssigned scnA 0) =
        { slotAssigned scnA 0 with status := .killed, startTime := none }) ∧
    (((applyOp { slots := [slotAssigned scnA 0], queue := [] } (.kill 0)).slots[0]).status
        = .killed ∧
      ((({ slots := [slotAssigned scnA 0], queue := [] } : Pool).slots[0]).status = .killed ∨
        (({ slots := [slotAssigned scnA 0], queue := [] } : Pool).slots[0]).status = .running)) :=
  ⟨⟨by decide, kill_contract.1 idleSlot (by decide)⟩,
   ⟨by decide, kill_contract.2.1 (slotAssigned scnA 0) (by decide)⟩,
   ⟨by decide,
    kill_contract.2.2 { slots := [slotAssigned scnA 0], queue := [] } (.kill 0) 0
      (by decide) (by decide) (by decide)⟩⟩

/-! ## kill_all idempotence (claim C6) -/

theorem slotKill_not_running (s : Slot) : (slotKill s).status ≠ .running := by
  by_cases hr : s.status = .running
  · simp [slotKill, hr]
  · simp [slotKill, hr]

theorem slotKill_idem (s : Slot) : slotKill (slotKill s) = slotKill s := by
  by_cases hr : s.status = .running <;> simp [slotKill, hr]

/-- **C6** — kill_all idempotence: `kill_all()` kills every running slot,
leaves no slot running, drains the queue, and reports every queued task as
cancelled; a second `kill_all()` returns the identical end state and
cancels nothing (no error — the model is total). -/
theorem kill_all_idempotent (p : Pool) :
    (killAll p).1.queue = [] ∧
    (killAll p).2 = p.queue ∧
    (∀ (i : Nat) (hi : i < p.slots.length) (hri : i < (killAll p).1.slots.length),
       (p.slots[i]).status = .running → ((killAll p).1.slots[i]).status = .killed) ∧
    (∀ s ∈ (killAll p).1.slots, s.status ≠ .running) ∧
    killAll (killAll p).1 = ((killAll p).1, []) := by
  refine ⟨rfl, rfl, ?_, ?_, ?_⟩
  · intro i hi hri hr
    simp only [killAll, List.getElem_map]
    simp [slotKill, hr]
  · intro s hs
    rcases List.mem_map.mp hs with ⟨s₀, _, rfl⟩
    exact slotKill_not_running s₀
  · simp only [killAll, List.map_map]
    rw [show slotKill ∘ slotKill = slotKill from funext slotKill_idem]

/-- Witness for C6: on a pool with one running slot and one queued task,
`kill_all` kills the slot, drains and reports the queue, and a second call
is a no-op. -/
theorem kill_all_idempotent_witness :
    (({ slots := [slotAssigned scnA 0], queue := [scnB] } : Pool).slots[0]).status
        = .running ∧
    ((killAll { slots := [slotAssigned scnA 0], queue := [scnB] }).1.slots[0]).status
        = .killed :=
  ⟨by decide,
   (kill_all_idempotent { slots := [slotAssigned scnA 0], queue := [scnB] }).2.2.1 0
     (by decide) (by decide) (by decide)⟩

/-! ## Status event payload (claim C7)

Modelled from the spec: the Status Broadcaster's `status_event` payload
`{slot_id, status: idle|running|done|failed|killed, task_id?,
task_description?, elapsed_seconds?, result_preview?}` (section 6). -/

/-- Modelled from the spec: the wire tag for each slot status. -/
def statusString : SlotStatus → String
  | .idle => "idle"
  | .running => "running"
  | .done => "done"
  | .failed => "failed"
  | .killed => "killed"

/-- Modelled from the spec: one immutable status event pushed to every
subscribed observer on each slot transition (section 4.4 / 6). -/
structure StatusEvent where
  slot_id : Nat
  status : String
  task_id : Option Nat
  task_description : Option String
  elapsed_seconds : Option Nat
  result_preview : Option String
deriving DecidableEq, Repr

/-- Modelled from the spec: build the status event for slot `i` in state
`s` at time `now`. -/
def mkStatusEvent (i : Nat) (s : Slot) (now : Nat) : StatusEvent :=
  { slot_id := i
    status := statusString s.status
    task_id := s.task.map Task.id
    task_description := s.task.map Task.description
    elapsed_seconds := s.startTime.map (fun st => now - st)
    result_preview := if s.output = "" then none else some s.output }

/-- **C7** — Status event payload: every status event carries a status tag
drawn from the closed set {idle, running, done, failed, killed}; distinct
slot states are never conflated (the tagging is injective); and a slot
terminated by the cancellation controller is reported as "killed", never as
"failed". -/
theorem status_event_payload :
    (∀ (i : Nat) (s : Slot) (now : Nat),
       (mkStatusEvent i s now).status ∈
         ["idle", "running", "done", "failed", "killed"]) ∧
    (∀ a b : SlotStatus, statusString a = statusString b → a = b) ∧
    (∀ (i now : Nat) (s : Slot), s.status = .running →
       (mkStatusEvent i (slotKill s) now).status = "killed" ∧
       (mkStatusEvent i (slotKill s) now).status ≠ "failed") := by
  refine ⟨?_, ?_, ?_⟩
  · intro i s now
    cases h : s.status <;> simp [mkStatusEvent, statusString, h]
  · intro a b hab
    cases a <;> cases b <;> first
      | rfl
      | (exfalso; revert hab; decide)
  · intro i now s hr
    constructor <;> simp [mkStatusEvent, slotKill, hr, statusString]

/-- Witness for C7: killing a running slot produces an event tagged
"killed". -/
theorem status_event_payload_witness :
    (slotAssigned scnA 0).status = .running ∧
    (mkStatusEvent 0 (slotKill (slotAssigned scnA 0)) 5).status = "killed" :=
  ⟨by decide, (status_event_payload.2.2 0 5 (slotAssigned scnA 0) (by decide)).1⟩

/-! ## Transcript overlap deduplication (claim C8)

Translated from `deduplicateOverlap` / `getLastWords` in
`web-ui/app/components/ChatFeed.tsx` (lines 320-346); the helper `dedup` in
the ChatTab component is the same function up to variable names.  Strings
are modelled as their character lists; `String.prototype.split(/\s+/)` is
modelled by `splitWs` (maximal whitespace runs separate tokens, a leading
or trailing run contributes an empty boundary token, and the empty string
splits to one empty token, as in JavaScript); `toLowerCase` is modelled by
`Char.toLower` on each character. -/

/-- JavaScript `\s`-style whitespace test (common ASCII whitespace). -/
def isWs (c : Char) : Bool :=
  c = ' ' || c = '\t' || c = '\n' || c = '\r' || c = '\x0b' || c = '\x0c'

/-- Worker for `splitWs`: `some acc` means a token with accumulated
(reversed) characters `acc` is open; `none` means the previous character
was whitespace and the preceding token has already been emitted. -/
def splitWsGo : Option (List Char) → List Char → List (List Char)
  | some acc, [] => [acc.reverse]
  | none, [] => [[]]
  | some acc, c :: cs =>
    if isWs c then acc.reverse :: splitWsGo none cs
    else splitWsGo (some (c :: acc)) cs
  | none, c :: cs =>
    if isWs c then splitWsGo none cs
    else splitWsGo (some [c]) cs

/-- `text.split(/\s+/)` of the source, on character lists. -/
def splitWs (s : List Char) : List (List Char) := splitWsGo (some []) s

/-- `xs.slice(-n)` of the source: the last `n` elements. -/
def lastN (l : List α) (n : Nat) : List α := l.drop (l.length - n)

/-- `words.join(" ")` of the source. -/
def joinSp (ws : List (List Char)) : List Char := List.intercalate [' '] ws

/-- `s.toLowerCase()` of the source, characterwise. -/
def lowerL (l : List Char) : List Char := l.map Char.toLower

/-- `getLastWords(text, n)` of the source:
`text.split(/\s+/).slice(-n).join(" ")`. -/
def getLastWords (t : List Char) (n : Nat) : List Char :=
  joinSp (lastN (splitWs t) n)

/-- The loop-body comparison of the source:
`tailWords.slice(-n).join(" ").toLowerCase() ===
 newWords.slice(0, n).join(" ").toLowerCase()`. -/
def overlapCmp (tailW newW : List (List Char)) (n : Nat) : Bool :=
  lowerL (joinSp (lastN tailW n)) == lowerL (joinSp (newW.take n))

/-- The source's descending scan
`for (tryLen = min(tailWords.length, 6); tryLen >= 2; tryLen--)`,
returning the first (largest) matching length, 0 when none matches. -/
def scanOverlap (tailW newW : List (List Char)) : Nat → Nat
  | 0 => 0
  | n + 1 =>
    if 2 ≤ n + 1 ∧ overlapCmp tailW newW (n + 1) = true then n + 1
    else scanOverlap tailW newW n

/-- `deduplicateOverlap` of the source on character lists, returning the
cleaned text together with the updated `prevTailRef` value. -/
def dedupWords (text prevTail : List Char) : List Char × List Char :=
  if prevTail = [] ∨ text = [] then
    (text, getLastWords text 5)
  else
    let tailW := splitWs prevTail
    let newW := splitWs text
    let overlapLen := scanOverlap tailW newW (min tailW.length 6)
    let cleaned := if 0 < overlapLen then joinSp (newW.drop overlapLen) else text
    (cleaned, getLastWords text 5)

/-- `deduplicateOverlap(text, prevTailRef)` of the source: first component
is the returned cleaned text, second the value stored into
`prevTailRef.current`. -/
def deduplicateOverlap (text prevTail : String) : String × String :=
  ((dedupWords text.data prevTail.data).1.asString,
   (dedupWords text.data prevTail.data).2.asString)

/-- The claim's overlap condition: some `n` with `2 ≤ n ≤ 6` makes the last
`n` words of the stored tail (which must have at least `n` words) equal,
case-insensitively, to the first `n` words of the text, words being
compared as the space-joined phrases the source builds. -/
def hasOverlap (tailW newW : List (List Char)) (n : Nat) : Bool :=
  decide (2 ≤ n) && decide (n ≤ 6) && decide (n ≤ tailW.length) &&
    overlapCmp tailW newW n

theorem hasOverlap_iff {tailW newW : List (List Char)} {n : Nat} :
    hasOverlap tailW newW n = true ↔
      2 ≤ n ∧ n ≤ 6 ∧ n ≤ tailW.length ∧ overlapCmp tailW newW n = true := by
  simp [hasOverlap, and_assoc]

theorem scanOverlap_eq_zero (tailW newW : List (List Char)) (fuel : Nat)
    (h : ∀ m, 2 ≤ m → m ≤ fuel → overlapCmp tailW newW m = false) :
    scanOverlap tailW newW fuel = 0 := by
  induction fuel with
  | zero => rfl
  | succ k ih =>
    have hc : ¬(2 ≤ k + 1 ∧ overlapCmp tailW newW (k + 1) = true) := by
      rintro ⟨h2, hcmp⟩
      rw [h (k + 1) h2 (le_refl _)] at hcmp
      exact Bool.false_ne_true hcmp
    rw [scanOverlap, if_neg hc]
    exact ih (fun m h2 hm => h m h2 (Nat.le_succ_of_le hm))

theorem scanOverlap_eq_max (tailW newW : List (List Char)) (fuel n : Nat)
    (h2 : 2 ≤ n) (hn : n ≤ fuel) (hcmp : overlapCmp tailW newW n = true)
    (hmax : ∀ m, n < m → m ≤ fuel → overlapCmp tailW newW m = false) :
    scanOverlap tailW newW fuel = n := by
  induction fuel with
  | zero => omega
  | succ k ih =>
    by_cases he : n = k + 1
    · subst he
      rw [scanOverlap, if_pos ⟨h2, hcmp⟩]
    · have hck : ¬(2 ≤ k + 1 ∧ overlapCmp tailW newW (k + 1) = true) := by
        rintro ⟨_, hc⟩
        rw [hmax (k + 1) (by omega) (le_refl _)] at hc
        exact Bool.false_ne_true hc
      rw [scanOverlap, if_neg hck]
      exact ih (by omega) (fun m hm hmk => hmax m hm (Nat.le_succ_of_le hmk))

theorem length_lastN (l : List α) (n : Nat) (h : n ≤ l.length) :
    (lastN l n).length = n := by
  simp [lastN]
  omega

theorem joinSp_cons_cons (a b : List Char) (t : List (List Char)) :
    joinSp (a :: b :: t) = a ++ ' ' :: joinSp (b :: t) := by
  simp [joinSp, List.intercalate, List.intersperse]

theorem joinSp_ne_nil {ws : List (List Char)} (h : 2 ≤ ws.length) :
    joinSp ws ≠ [] := by
  match ws, h with
  | a :: b :: t, _ =>
    rw [joinSp_cons_cons]
    simp

/-- With fewer than two tail words, or an empty text, the loop comparison
can never succeed for `n ≥ 2` with `n` tail words available. -/
theorem overlapCmp_empty_text {tailW : List (List Char)} {n : Nat}
    (h2 : 2 ≤ n) (hlen : n ≤ tailW.length) :
    overlapCmp tailW (splitWs []) n = false := by
  rw [overlapCmp]
  rw [Bool.eq_false_iff]
  intro hbeq
  have heq := eq_of_beq hbeq
  have hlast : (lastN tailW n).length = n := length_lastN tailW n hlen
  have hne : joinSp (lastN tailW n) ≠ [] := joinSp_ne_nil (by omega)
  have htake : (splitWs []).take n = [[]] := by
    cases n with
    | zero => omega
    | succ k => simp [splitWs, splitWsGo]
  rw [htake] at heq
  have hone : joinSp [[]] = [] := rfl
  rw [hone] at heq
  simp only [lowerL, List.map_nil, List.map_eq_nil_iff] at heq
  exact hne heq

/-- **C8** — Transcript overlap deduplication: in every case the stored
tail is replaced by the last 5 words of the input text; when the stored
tail or the text is empty, or no overlap length `n` with `2 ≤ n ≤ 6`
matches (case-insensitively) the last `n` words of the tail against the
first `n` words of the text, the text is returned unchanged; and when such
overlaps exist the text is returned with its first `n` words removed for
the largest matching `n`. -/
theorem transcript_dedup (text prevTail : String) :
    (deduplicateOverlap text prevTail).2 = (getLastWords text.data 5).asString ∧
    (prevTail = "" ∨ text = "" → (deduplicateOverlap text prevTail).1 = text) ∧
    ((∀ n, hasOverlap (splitWs prevTail.data) (splitWs text.data) n = false) →
      (deduplicateOverlap text prevTail).1 = text) ∧
    (∀ n, hasOverlap (splitWs prevTail.data) (splitWs text.data) n = true →
      (∀ m, hasOverlap (splitWs prevTail.data) (splitWs text.data) m = true → m ≤ n) →
      (deduplicateOverlap text prevTail).1 =
        (joinSp ((splitWs text.data).drop n)).asString) := by
  refine ⟨?_, ?_, ?_, ?_⟩
  · show (dedupWords text.data prevTail.data).2.asString = _
    rw [dedupWords]
    split
    · rfl
    · rfl
  · intro h
    have hd : prevTail.data = [] ∨ text.data = [] := by
      rcases h with h | h
      · exact Or.inl (by rw [h])
      · exact Or.inr (by rw [h])
    show (dedupWords text.data prevTail.data).1.asString = text
    rw [dedupWords, if_pos hd]
    rfl
  · intro h
    show (dedupWords text.data prevTail.data).1.asString = text
    rw [dedupWords]
    split
    · rfl
    · have hz : scanOverlap (splitWs prevTail.data) (splitWs text.data)
          (min (splitWs prevTail.data).length 6) = 0 := by
        apply scanOverlap_eq_zero
        intro m h2 hm
        have hm6 : m ≤ 6 := le_trans hm (Nat.min_le_right _ _)
        have hml : m ≤ (splitWs prevTail.data).length :=
          le_trans hm (Nat.min_le_left _ _)
        have := h m
        rw [Bool.eq_false_iff] at this ⊢
        intro hc
        exact this (hasOverlap_iff.mpr ⟨h2, hm6, hml, hc⟩)
      simp only [hz]
      rfl
  · intro n hn hmax
    rcases hasOverlap_iff.mp hn with ⟨h2, h6, hlen, hcmp⟩
    show (dedupWords text.data prevTail.data).1.asString = _
    rw [dedupWords]
    split
    · rcases ‹prevTail.data = [] ∨ text.data = []› with hp | ht
      · rw [hp] at hlen
        simp [splitWs, splitWsGo] at hlen
        omega
      · rw [ht] at hcmp
        rw [overlapCmp_empty_text h2 hlen] at hcmp
        exact absurd hcmp Bool.false_ne_true
    · have hs : scanOverlap (splitWs prevTail.data) (splitWs text.data)
          (min (splitWs prevTail.data).length 6) = n := by
        apply scanOverlap_eq_max _ _ _ n h2 (Nat.le_min.mpr ⟨hlen, h6⟩) hcmp
        intro m hm hmf
        rw [Bool.eq_false_iff]
        intro hc
        have hm6 : m ≤ 6 := le_trans hmf (Nat.min_le_right _ _)
        have hml : m ≤ (splitWs prevTail.data).length :=
          le_trans hmf (Nat.min_le_left _ _)
        have := hmax m (hasOverlap_iff.mpr ⟨by omega, hm6, hml, hc⟩)
        omega
      simp only [hs]
      rw [if_pos (by omega : 0 < n)]

/-- Witness for C8: with stored tail "say hello World" and new text
"Hello world how are you", the overlap of length 2 ("hello world",
case-insensitively) is removed, leaving "how are you". -/
theorem transcript_dedup_witness :
    hasOverlap (splitWs "say hello World".data) (splitWs "Hello world how are you".data) 2
        = true ∧
    (deduplicateOverlap "Hello world how are you" "say hello World").1 = "how are you" := by
  have h2 : hasOverlap (splitWs "say hello World".data)
      (splitWs "Hello world how are you".data) 2 = true := by decide
  have hmax : ∀ m, hasOverlap (splitWs "say hello World".data)
      (splitWs "Hello world how are you".data) m = true → m ≤ 2 := by
    intro m hm
    rcases hasOverlap_iff.mp hm with ⟨hm2, hm6, hml, hcmp⟩
    interval_cases m <;> revert hcmp <;> decide
  have := (transcript_dedup "Hello world how are you" "say hello World").2.2.2 2 h2 hmax
  refine ⟨h2, ?_⟩
  rw [this]
  decide

/-! ## Bounded chat feeds (claims C9, C10)

Translated from the message-state updates of the two chat components:
`addMsg` in the ChatTab component (`setMessages(prev => [...prev.slice(-150),
msg])`), `addMessage` in `ChatFeed.tsx` (`[...prev.slice(-100), msg]`), and
the `agent_result` handler of each, which first filters out the
`agent_spawned` messages with the event's todo id and then appends the
result message through the bounded append. -/

/-- A chat feed message: the `type` tag of the source's ChatMessage union,
its text, and the `meta.todoId` field when present. -/
structure ChatMessage where
  type : String
  text : String
  todoId : Option Nat
deriving DecidableEq, Repr

/-- `addMsg` of the ChatTab component: keep the last 150 previous messages
and append the new one. -/
def addMsg (prev : List ChatMessage) (m : ChatMessage) : List ChatMessage :=
  lastN prev 150 ++ [m]

/-- `addMessage` of ChatFeed.tsx: keep the last 100 previous messages and
append the new one. -/
def addMessage (prev : List ChatMessage) (m : ChatMessage) : List ChatMessage :=
  lastN prev 100 ++ [m]

theorem addMsg_shape (prev : List ChatMessage) (m : ChatMessage) :
    (addMsg prev m).length ≤ 151 ∧
    (addMsg prev m).dropLast <:+ prev ∧
    (addMsg prev m).getLast? = some m := by
  refine ⟨?_, ?_, ?_⟩
  · simp [addMsg, lastN]
    omega
  · rw [addMsg, List.dropLast_concat]
    exact List.drop_suffix _ _
  · rw [addMsg, List.getLast?_concat]

theorem addMessage_shape (prev : List ChatMessage) (m : ChatMessage) :
    (addMessage prev m).length ≤ 101 ∧
    (addMessage prev m).dropLast <:+ prev ∧
    (addMessage prev m).getLast? = some m := by
  refine ⟨?_, ?_, ?_⟩
  · simp [addMessage, lastN]
    omega
  · rw [addMessage, List.dropLast_concat]
    exact List.drop_suffix _ _
  · rw [addMessage, List.getLast?_concat]

theorem foldl_addMsg_le (ms : List ChatMessage) :
    ∀ acc : List ChatMessage, acc.length ≤ 151 →
      (List.foldl addMsg acc ms).length ≤ 151 := by
  induction ms with
  | nil => intro acc h; exact h
  | cons m rest ih =>
    intro acc _
    rw [List.foldl_cons]
    exact ih (addMsg acc m) (addMsg_shape acc m).1

theorem foldl_addMessage_le (ms : List ChatMessage) :
    ∀ acc : List ChatMessage, acc.length ≤ 101 →
      (List.foldl addMessage acc ms).length ≤ 101 := by
  induction ms with
  | nil => intro acc h; exact h
  | cons m rest ih =>
    intro acc _
    rw [List.foldl_cons]
    exact ih (addMessage acc m) (addMessage_shape acc m).1

/-- **C9** — Bounded chat feed: each append keeps only the newest prior
messages (150 in ChatTab, 100 in ChatFeed) plus the new one — the result
minus its appended last element is a suffix of the previous feed — so after
any sequence of appends from the empty feed the list never exceeds 151
(respectively 101) entries. -/
theorem bounded_chat_feed :
    (∀ (prev : List ChatMessage) (m : ChatMessage),
       (addMsg prev m).length ≤ 151 ∧
       (addMsg prev m).dropLast <:+ prev ∧
       (addMsg prev m).getLast? = some m) ∧
    (∀ (prev : List ChatMessage) (m : ChatMessage),
       (addMessage prev m).length ≤ 101 ∧
       (addMessage prev m).dropLast <:+ prev ∧
       (addMessage prev m).getLast? = some m) ∧
    (∀ ms : List ChatMessage, (List.foldl addMsg [] ms).length ≤ 151) ∧
    (∀ ms : List ChatMessage, (List.foldl addMessage [] ms).length ≤ 101) :=
  ⟨addMsg_shape, addMessage_shape,
   fun ms => foldl_addMsg_le ms [] (by simp),
   fun ms => foldl_addMessage_le ms [] (by simp)⟩

/-! ## agent_result replaces the spawn notice (claim C10) -/

/-- The filter predicate of the `agent_result` handlers:
`m.type === "agent_spawned" && m.meta?.todoId === d.todo_id`. -/
def isSpawnedFor (todoId : Nat) (m : ChatMessage) : Bool :=
  decide (m.type = "agent_spawned") && decide (m.todoId = some todoId)

/-- The `agent_result` event handler of ChatFeed.tsx: drop the spawn
notices for this todo id, then append the result message through the
bounded `addMessage`. -/
def processAgentResult (msgs : List ChatMessage) (todoId : Nat)
    (res : ChatMessage) : List ChatMessage :=
  addMessage (msgs.filter (fun m => !isSpawnedFor todoId m)) res

/-- The `agent_result` event handler of the ChatTab component (identical
shape, with the 150-message bound of `addMsg`). -/
def processAgentResultTab (msgs : List ChatMessage) (todoId : Nat)
    (res : ChatMessage) : List ChatMessage :=
  addMsg (msgs.filter (fun m => !isSpawnedFor todoId m)) res

/-- Counterexample to C10 as stated: on a ChatFeed holding 101 system
messages (none of them an `agent_spawned` for todo 7), processing an
`agent_result` for todo 7 does not merely remove the matching spawn
notices and append — the bounded append also drops the oldest remaining
message. -/
theorem agent_result_replacement_cex :
    processAgentResult (List.replicate 101 ⟨"system", "x", none⟩) 7
        ⟨"agent_result", "r", some 7⟩ ≠
      (List.replicate 101 (⟨"system", "x", none⟩ : ChatMessage)).filter
          (fun m => !isSpawnedFor 7 m) ++ [⟨"agent_result", "r", some 7⟩] := by
  intro h
  have hlen := congrArg List.length h
  have hall : ∀ m ∈ List.replicate 101 (⟨"system", "x", none⟩ : ChatMessage),
      (!isSpawnedFor 7 m) = true := by
    intro m hm
    rw [List.eq_of_mem_replicate hm]
    rfl
  rw [List.filter_eq_self.mpr hall] at hlen
  rw [processAgentResult, List.filter_eq_self.mpr hall, addMessage] at hlen
  simp only [List.length_append, List.length_singleton, lastN, List.length_drop,
    List.length_replicate] at hlen
  omega

theorem lastN_of_le {l : List α} {n : Nat} (h : l.length ≤ n) :
    lastN l n = l := by
  simp [lastN, Nat.sub_eq_zero_of_le h]

/-- **C10 (amended)** — Processing an `agent_result` event with todo id X
removes exactly the `agent_spawned` messages whose todoId equals X, keeps
the remaining messages in order but retains only the newest 100 of them
(150 in ChatTab) when the append truncates, and appends one `agent_result`
message; whenever the filtered feed holds at most 100 (respectively 150)
messages this is exactly "every other message unchanged, result appended";
in every case no `agent_spawned` message for X remains. -/
theorem agent_result_replacement (msgs : List ChatMessage) (todoId : Nat)
    (res : ChatMessage) (hres : res.type = "agent_result") :
    (processAgentResult msgs todoId res =
      lastN (msgs.filter (fun m => !isSpawnedFor todoId m)) 100 ++ [res]) ∧
    ((msgs.filter (fun m => !isSpawnedFor todoId m)).length ≤ 100 →
      processAgentResult msgs todoId res =
        msgs.filter (fun m => !isSpawnedFor todoId m) ++ [res]) ∧
    (processAgentResultTab msgs todoId res =
      lastN (msgs.filter (fun m => !isSpawnedFor todoId m)) 150 ++ [res]) ∧
    ((msgs.filter (fun m => !isSpawnedFor todoId m)).length ≤ 150 →
      processAgentResultTab msgs todoId res =
        msgs.filter (fun m => !isSpawnedFor todoId m) ++ [res]) ∧
    List.Sublist (msgs.filter (fun m => !isSpawnedFor todoId m)) msgs ∧
    (∀ m ∈ processAgentResult msgs todoId res, isSpawnedFor todoId m = false) ∧
    (∀ m ∈ processAgentResultTab msgs todoId res, isSpawnedFor todoId m = false) := by
  have hresF : isSpawnedFor todoId res = false := by
    simp [isSpawnedFor, hres]
  have hmemF : ∀ k, ∀ m ∈ lastN (msgs.filter (fun m => !isSpawnedFor todoId m)) k ++ [res],
      isSpawnedFor todoId m = false := by
    intro k m hm
    rcases List.mem_append.mp hm with hm | hm
    · have hm2 : m ∈ msgs.filter (fun m => !isSpawnedFor todoId m) :=
        (List.drop_suffix _ _).subset hm
      simpa using (List.mem_filter.mp hm2).2
    · rw [List.mem_singleton.mp hm]
      exact hresF
  refine ⟨rfl, ?_, rfl, ?_, List.filter_sublist _, hmemF 100, hmemF 150⟩
  · intro h
    show addMessage _ _ = _
    rw [addMessage, lastN_of_le h]
  · intro h
    show addMsg _ _ = _
    rw [addMsg, lastN_of_le h]

/-- Witness for the amended C10: a feed with one spawn notice for todo 7
and one system message; the handler removes the notice, keeps the system
message and appends the result. -/
theorem agent_result_replacement_witness :
    (⟨"agent_result", "r", some 7⟩ : ChatMessage).type = "agent_result" ∧
    processAgentResult
        [⟨"agent_spawned", "t", some 7⟩, ⟨"system", "x", none⟩] 7
        ⟨"agent_result", "r", some 7⟩ =
      [⟨"system", "x", none⟩, ⟨"agent_result", "r", some 7⟩] := by
  have h := (agent_result_replacement
      [⟨"agent_spawned", "t", some 7⟩, ⟨"system", "x", none⟩] 7
      ⟨"agent_result", "r", some 7⟩ rfl).2.1 (by decide)
  refine ⟨rfl, ?_⟩
  rw [h]
  decide

end NanoAGI
